import Mathlib

/-!
Verification of the BottleNet custom autograd operation
(src/bottlenet-architecture-torch.ipynb, class BottleneckUnit).

The forward pass reshapes a rank-4 activation tensor (batch, channels, w, h)
into a 2-D single-channel image of batch*channels rows and w*h columns,
saves it as a JPEG at quality 90, reopens the compressed bytes, converts the
decoded image back to a float tensor, and reshapes it to the original shape.
The backward pass returns the incoming gradient unchanged.

Tensors are embedded as a shape list together with row-major flat data over
the rationals (standing for the floating-point samples).  The JPEG codec
itself lives in the third-party PIL library, not in this repository, so the
byte-level encode/decode round trip is an abstract parameter (a Codec), and
the torchvision sample conversions around it are modelled from the spec.
-/

namespace BottleNet

/-- An activation tensor: a shape and the row-major flat data of the
    floating-point samples, embedded over the rationals. -/
structure Tensor where
  shape : List Nat
  data : List ℚ
  deriving Repr, DecidableEq

/-- torch.zeros_like: a tensor of the same shape whose data is all zeros. -/
def zeros_like (x : Tensor) : Tensor :=
  { shape := x.shape, data := List.replicate x.data.length 0 }

/-- Modelled from the spec: the torchvision ToPILImage sample conversion
    (third-party code, not in this repository).  Per the spec, input values
    outside the unit interval are implicitly clamped during the image encode
    step; a float sample is clamped to the unit interval and scaled to an
    8-bit value. -/
def floatToByte (v : ℚ) : Nat :=
  (⌊max 0 (min v 1) * 255⌋).toNat

/-- Modelled from the spec: the torchvision ToTensor decode normalization
    (third-party code, not in this repository).  The spec states the decoded
    bytes come back as a floating-point tensor normalized to the unit
    interval: an 8-bit sample b maps to b divided by 255. -/
def byteToFloat (b : Nat) : ℚ :=
  (b : ℚ) / 255

/-- Abstract interface for the lossy image encode/decode round trip
    (image.save as JPEG followed by Image.open and conversion back to bytes).
    The PIL implementation is third-party and not in this repository, so it
    is kept abstract: a function from quality, row count, column count and
    the 8-bit samples of the single-channel image to the decoded 8-bit
    samples, known only to preserve the sample count and the 8-bit range. -/
structure Codec where
  roundtrip : Nat → Nat → Nat → List Nat → List Nat
  length_eq : ∀ q r c px, (roundtrip q r c px).length = px.length
  le_255 : ∀ q r c px, (∀ b ∈ px, b ≤ 255) →
    ∀ b ∈ roundtrip q r c px, b ≤ 255

/-- BottleneckUnit.forward: allocate a zero result, unpack the rank-4 shape,
    view the data as a batch_size*channels by w*h single-channel image,
    save it as a JPEG at quality 90, reopen and decode it back to floats,
    and view the result back in the original shape.  Unpacking a shape that
    is not rank 4 raises, as does a view with an incompatible element
    count. -/
def BottleneckUnit.forward (codec : Codec) (x : Tensor) : Except String Tensor :=
  let result := zeros_like x
  match x.shape with
  | [batch_size, channels, w, h] =>
    if x.data.length = batch_size * channels * (w * h) then
      let bytes := x.data.map floatToByte
      let decompressed := codec.roundtrip 90 (batch_size * channels) (w * h) bytes
      let result := decompressed.map byteToFloat
      Except.ok { shape := [batch_size, channels, w, h], data := result }
    else
      Except.error ("shape is invalid for input size")
  | other =>
    if other.length < 4 then
      Except.error ("not enough values to unpack (expected 4)")
    else
      Except.error ("too many values to unpack (expected 4)")

/-- BottleneckUnit.backward: the gradient of the JPEG round trip is
    approximated by the identity, so the output gradient is returned
    unchanged.  The autograd context argument is unused by the source. -/
def BottleneckUnit.backward (_ctx : Unit) (grad_output : Tensor) : Tensor :=
  grad_output

/-- A lossless round trip: encode/decode that returns the samples as given.
    Used to exercise the forward pass on concrete inputs. -/
def identityCodec : Codec where
  roundtrip := fun _ _ _ px => px
  length_eq := fun _ _ _ _ => rfl
  le_255 := fun _ _ _ _ h => h

/-! ### Basic facts about the sample conversions -/

lemma clamp_nonneg (v : ℚ) : 0 ≤ max 0 (min v 1) :=
  le_max_left 0 _

lemma clamp_le_one (v : ℚ) : max 0 (min v 1) ≤ 1 :=
  max_le (by norm_num) (min_le_right v 1)

lemma floatToByte_le (v : ℚ) : floatToByte v ≤ 255 := by
  unfold floatToByte
  rw [Int.toNat_le]
  have h : max 0 (min v 1) * 255 ≤ (255 : ℚ) := by
    nlinarith [clamp_le_one v]
  calc ⌊max 0 (min v 1) * 255⌋ ≤ ⌊(255 : ℚ)⌋ := Int.floor_le_floor h
    _ = 255 := by norm_num

lemma byteToFloat_nonneg (b : Nat) : 0 ≤ byteToFloat b := by
  unfold byteToFloat
  positivity

lemma byteToFloat_le_one {b : Nat} (hb : b ≤ 255) : byteToFloat b ≤ 1 := by
  unfold byteToFloat
  rw [div_le_one (by norm_num)]
  exact_mod_cast hb

/-- Encoding an already decoded 8-bit sample recovers the sample exactly:
    the value b/255 lies in the unit interval, so the clamp is the identity
    and scaling by 255 gives back b. -/
lemma floatToByte_byteToFloat {b : Nat} (hb : b ≤ 255) :
    floatToByte (byteToFloat b) = b := by
  unfold floatToByte byteToFloat
  have h0 : (0 : ℚ) ≤ (b : ℚ) / 255 := by positivity
  have h1 : (b : ℚ) / 255 ≤ 1 := by
    rw [div_le_one (by norm_num)]
    exact_mod_cast hb
  rw [min_eq_left h1, max_eq_right h0]
  rw [div_mul_cancel₀ _ (by norm_num : (255 : ℚ) ≠ 0)]
  rw [Int.floor_natCast, Int.toNat_natCast]

/-- Successful evaluation of the forward pass on a rank-4 tensor whose data
    length matches its shape. -/
lemma forward_ok (codec : Codec) (x : Tensor) (b c w h : Nat)
    (hs : x.shape = [b, c, w, h]) (hl : x.data.length = b * c * (w * h)) :
    BottleneckUnit.forward codec x =
      Except.ok ⟨[b, c, w, h],
        (codec.roundtrip 90 (b * c) (w * h) (x.data.map floatToByte)).map
          byteToFloat⟩ := by
  unfold BottleneckUnit.forward
  rw [hs]
  simp [hl]

/-- Inversion: a successful forward pass arises only from a rank-4 tensor
    with matching length, and the output is the decoded round trip of the
    encoded data. -/
lemma forward_ok_inv (codec : Codec) (x y : Tensor)
    (hxy : BottleneckUnit.forward codec x = Except.ok y) :
    ∃ b c w h, x.shape = [b, c, w, h] ∧ x.data.length = b * c * (w * h) ∧
      y = ⟨[b, c, w, h],
        (codec.roundtrip 90 (b * c) (w * h) (x.data.map floatToByte)).map
          byteToFloat⟩ := by
  unfold BottleneckUnit.forward at hxy
  split at hxy
  · split at hxy
    · rename_i b c w h heq hl
      refine ⟨b, c, w, h, heq, hl, ?_⟩
      exact ((Except.ok.injEq _ _).mp hxy).symm
    · exact absurd hxy (by simp)
  · split at hxy <;> exact absurd hxy (by simp)

/-! ### C1 and C2 -/

/-- C1: BottleneckUnit.backward returns the incoming gradient tensor exactly
    unchanged (identity law), for every gradient tensor and every autograd
    context, so a gradient propagated through the bottleneck reaches the
    preceding layer with unchanged magnitude. -/
theorem backward_identity (ctx : Unit) (G : Tensor) :
    BottleneckUnit.backward ctx G = G :=
  rfl

/-- C2: whenever BottleneckUnit.forward succeeds, the output tensor has
    exactly the shape of the input, with the same number of samples. -/
theorem forward_preserves_shape (codec : Codec) (x y : Tensor)
    (h : BottleneckUnit.forward codec x = Except.ok y) :
    y.shape = x.shape ∧ y.data.length = x.data.length := by
  obtain ⟨b, c, w, hh, hs, hl, hy⟩ := forward_ok_inv codec x y h
  subst hy
  refine ⟨hs.symm, ?_⟩
  simp [List.length_map, codec.length_eq, hl]

/-- Concrete instance of C2: a 1x1x1x1 tensor with the single sample 1/2
    maps to a tensor of the same shape and size. -/
theorem forward_preserves_shape_witness :
    (Tensor.mk [1, 1, 1, 1] [127/255]).shape =
        (Tensor.mk [1, 1, 1, 1] [1/2]).shape ∧
      (Tensor.mk [1, 1, 1, 1] [127/255]).data.length =
        (Tensor.mk [1, 1, 1, 1] [1/2]).data.length := by
  refine forward_preserves_shape identityCodec _ _ ?_
  simp only [BottleneckUnit.forward, identityCodec, zeros_like, List.map]
  norm_num [floatToByte, byteToFloat, min_def, max_def]
  rfl

/-! ### Clamping and the output range -/

lemma floatToByte_of_one_le {v : ℚ} (h : 1 ≤ v) : floatToByte v = 255 := by
  unfold floatToByte
  rw [min_eq_right h, max_eq_right (by norm_num : (0 : ℚ) ≤ 1), one_mul]
  norm_num
  rfl

lemma floatToByte_of_le_zero {v : ℚ} (h : v ≤ 0) : floatToByte v = 0 := by
  unfold floatToByte
  rw [min_eq_left (h.trans (by norm_num)), max_eq_left h, zero_mul]
  norm_num

/-- All encoded samples are 8-bit values, so by the codec range guarantee all
    decoded samples are as well, and the normalized output samples lie in the
    unit interval. -/
lemma forward_ok_range (codec : Codec) (x y : Tensor)
    (h : BottleneckUnit.forward codec x = Except.ok y) :
    ∀ v ∈ y.data, 0 ≤ v ∧ v ≤ 1 := by
  obtain ⟨b, c, w, hh, hs, hl, hy⟩ := forward_ok_inv codec x y h
  subst hy
  intro v hv
  simp only [List.mem_map] at hv
  obtain ⟨bb, hbb, hv⟩ := hv
  have hb255 : bb ≤ 255 := by
    refine codec.le_255 90 (b * c) (w * hh) _ ?_ bb hbb
    intro b' hb'
    simp only [List.mem_map] at hb'
    obtain ⟨u, _, hu⟩ := hb'
    exact hu ▸ floatToByte_le u
  exact hv ▸ ⟨byteToFloat_nonneg bb, byteToFloat_le_one hb255⟩

/-- C3: every sample of a successful forward output lies in the unit
    interval, even when input samples lie outside it; out-of-range input
    samples are clamped during the encode step, a sample at least 1 encoding
    to the top 8-bit value 255 and a sample at most 0 encoding to 0. -/
theorem forward_output_in_unit_interval (codec : Codec) (x y : Tensor)
    (h : BottleneckUnit.forward codec x = Except.ok y) :
    (∀ v ∈ y.data, 0 ≤ v ∧ v ≤ 1) ∧
      (∀ v : ℚ, 1 ≤ v → floatToByte v = 255) ∧
      (∀ v : ℚ, v ≤ 0 → floatToByte v = 0) :=
  ⟨forward_ok_range codec x y h,
    fun _ hv => floatToByte_of_one_le hv,
    fun _ hv => floatToByte_of_le_zero hv⟩

/-- Concrete instance of C3: a tensor whose samples 3/2 and -1 lie outside
    the unit interval maps to the clamped samples 1 and 0. -/
theorem forward_output_in_unit_interval_witness :
    (∀ v ∈ (Tensor.mk [1, 1, 1, 2] [1, 0]).data, 0 ≤ v ∧ v ≤ 1) ∧
      (∀ v : ℚ, 1 ≤ v → floatToByte v = 255) ∧
      (∀ v : ℚ, v ≤ 0 → floatToByte v = 0) := by
  refine forward_output_in_unit_interval identityCodec
    ⟨[1, 1, 1, 2], [3/2, -1]⟩ _ ?_
  simp only [BottleneckUnit.forward, identityCodec, zeros_like, List.map]
  norm_num [floatToByte, byteToFloat, min_def, max_def]
  norm_num [show Int.toNat 255 = 255 from rfl]

/-! ### C5: precondition failure and normal operation -/

/-- Well-formedness precondition of the forward pass: a rank-4 shape whose
    element count matches the data length. -/
def wellFormed4 (x : Tensor) : Prop :=
  ∃ b c w h, x.shape = [b, c, w, h] ∧ x.data.length = b * c * (w * h)

/-- C5: on a well-formed rank-4 input the forward pass succeeds and raises
    nothing, while a malformed input (not rank 4, or an element count that
    does not match the rank-4 shape) fails immediately with a nonempty
    descriptive error message. -/
theorem forward_error_handling (codec : Codec) (x : Tensor) :
    (wellFormed4 x → ∃ y, BottleneckUnit.forward codec x = Except.ok y) ∧
      (¬ wellFormed4 x →
        ∃ msg, BottleneckUnit.forward codec x = Except.error msg ∧
          msg.length ≠ 0) := by
  constructor
  · rintro ⟨b, c, w, h, hs, hl⟩
    exact ⟨_, forward_ok codec x b c w h hs hl⟩
  · intro hwf
    obtain ⟨shape, data⟩ := x
    rcases shape with _ | ⟨b, _ | ⟨c, _ | ⟨w, _ | ⟨h, _ | ⟨e, rest⟩⟩⟩⟩⟩
    · exact ⟨_, rfl, by decide⟩
    · exact ⟨_, rfl, by decide⟩
    · exact ⟨_, rfl, by decide⟩
    · exact ⟨_, rfl, by decide⟩
    · have hne : data.length ≠ b * c * (w * h) := by
        intro hl
        exact hwf ⟨b, c, w, h, rfl, hl⟩
      refine ⟨"shape is invalid for input size", ?_, by decide⟩
      unfold BottleneckUnit.forward
      simp only []
      rw [if_neg hne]
    · have hlen : ¬ ((b :: c :: w :: h :: e :: rest).length < 4) := by
        simp only [List.length_cons]
        omega
      refine ⟨"too many values to unpack (expected 4)", ?_, by decide⟩
      unfold BottleneckUnit.forward
      simp only []
      rw [if_neg hlen]

/-- Concrete instance of C5: a rank-4 input succeeds and a rank-2 input
    fails with a nonempty message. -/
theorem forward_error_handling_witness :
    (∃ y, BottleneckUnit.forward identityCodec
        ⟨[1, 1, 2, 1], [0, 1]⟩ = Except.ok y) ∧
      (∃ msg, BottleneckUnit.forward identityCodec
          ⟨[2, 1], [0, 1]⟩ = Except.error msg ∧ msg.length ≠ 0) :=
  ⟨(forward_error_handling identityCodec ⟨[1, 1, 2, 1], [0, 1]⟩).1
      ⟨1, 1, 2, 1, rfl, rfl⟩,
    (forward_error_handling identityCodec ⟨[2, 1], [0, 1]⟩).2
      (by rintro ⟨b, c, w, h, hs, hl⟩; simp at hs)⟩

/-! ### C9: outputs are multiples of 1/255 -/

/-- Every sample of a successful forward output is an 8-bit sample divided
    by 255. -/
lemma forward_ok_quantized (codec : Codec) (x y : Tensor)
    (h : BottleneckUnit.forward codec x = Except.ok y) :
    ∀ v ∈ y.data, ∃ k : Nat, k ≤ 255 ∧ v = (k : ℚ) / 255 := by
  obtain ⟨b, c, w, hh, hs, hl, hy⟩ := forward_ok_inv codec x y h
  subst hy
  intro v hv
  simp only [List.mem_map] at hv
  obtain ⟨bb, hbb, hv⟩ := hv
  have hb255 : bb ≤ 255 := by
    refine codec.le_255 90 (b * c) (w * hh) _ ?_ bb hbb
    intro b' hb'
    simp only [List.mem_map] at hb'
    obtain ⟨u, _, hu⟩ := hb'
    exact hu ▸ floatToByte_le u
  exact ⟨bb, hb255, hv.symm⟩

/-- C9: every sample of a successful forward output equals k/255 for some
    integer k between 0 and 255, because the decode path divides 8-bit codec
    samples by 255; consequently the output takes at most 256 distinct
    values. -/
theorem forward_output_multiples (codec : Codec) (x y : Tensor)
    (h : BottleneckUnit.forward codec x = Except.ok y) :
    (∀ v ∈ y.data, ∃ k : Nat, k ≤ 255 ∧ v = (k : ℚ) / 255) ∧
      y.data.toFinset.card ≤ 256 := by
  refine ⟨forward_ok_quantized codec x y h, ?_⟩
  have hsub : y.data.toFinset ⊆
      (Finset.range 256).image (fun k : Nat => (k : ℚ) / 255) := by
    intro v hv
    rw [List.mem_toFinset] at hv
    obtain ⟨k, hk, hvk⟩ := forward_ok_quantized codec x y h v hv
    exact Finset.mem_image.mpr ⟨k, Finset.mem_range.mpr (by omega), hvk.symm⟩
  calc y.data.toFinset.card
      ≤ ((Finset.range 256).image (fun k : Nat => (k : ℚ) / 255)).card :=
        Finset.card_le_card hsub
    _ ≤ (Finset.range 256).card := Finset.card_image_le
    _ = 256 := Finset.card_range 256

/-- Concrete instance of C9: the sample 21/50 comes back as 107/255, a
    multiple of 1/255, in a singleton output. -/
theorem forward_output_multiples_witness :
    (∀ v ∈ (Tensor.mk [1, 1, 1, 1] [107/255]).data,
        ∃ k : Nat, k ≤ 255 ∧ v = (k : ℚ) / 255) ∧
      (Tensor.mk [1, 1, 1, 1] [107/255]).data.toFinset.card ≤ 256 := by
  refine forward_output_multiples identityCodec ⟨[1, 1, 1, 1], [21/50]⟩ _ ?_
  simp only [BottleneckUnit.forward, identityCodec, zeros_like, List.map]
  norm_num [floatToByte, byteToFloat, min_def, max_def]
  rfl

/-! ### C4: the forward pass as the spec words it -/

/-- Fixed quality setting of the lossy encode step: 90 on a 0 to 100
    scale. -/
def jpegQuality : Nat := 90

/-- Stated from the spec wording: reshape the input into a 2-D arrangement,
    collapsing batch and channel into rows and width times height into
    columns, so it can be treated as a single-channel image; a malformed
    shape is a precondition failure. -/
def collapseTo2D (x : Tensor) : Except String (Nat × Nat × List ℚ) :=
  match x.shape with
  | [b, c, w, h] =>
    if x.data.length = b * c * (w * h) then
      Except.ok (b * c, w * h, x.data)
    else
      Except.error ("shape is invalid for input size")
  | other =>
    if other.length < 4 then
      Except.error ("not enough values to unpack (expected 4)")
    else
      Except.error ("too many values to unpack (expected 4)")

/-- Stated from the spec wording: encode the 2-D arrangement into the lossy
    compressed image format at the fixed quality setting, then decode the
    compressed bytes back into floating-point samples normalized to the
    unit interval. -/
def encodeDecodeNormalize (codec : Codec) (rows cols : Nat)
    (vals : List ℚ) : List ℚ :=
  (codec.roundtrip jpegQuality rows cols (vals.map floatToByte)).map
    byteToFloat

/-- Stated from the spec wording: reshape the decoded samples back to the
    original shape. -/
def reshapeBack (shape : List Nat) (vals : List ℚ) : Tensor :=
  { shape := shape, data := vals }

/-- The forward contract exactly as the spec words it: collapse batch and
    channel into rows and width times height into columns, encode at the
    fixed quality 90 and decode back normalized, and reshape to the original
    rank-4 shape. -/
def forwardSpec (codec : Codec) (x : Tensor) : Except String Tensor :=
  (collapseTo2D x).map fun rcv =>
    reshapeBack x.shape (encodeDecodeNormalize codec rcv.1 rcv.2.1 rcv.2.2)

/-- C4: the source forward pass performs exactly the steps the spec lists,
    in order: reshape to a batch_size*channels by w*h single-channel image,
    lossy encode at fixed quality 90, decode normalized to the unit
    interval, reshape back to the original rank-4 shape. -/
theorem forward_refines_spec (codec : Codec) (x : Tensor) :
    BottleneckUnit.forward codec x = forwardSpec codec x := by
  obtain ⟨shape, data⟩ := x
  unfold BottleneckUnit.forward forwardSpec collapseTo2D
    encodeDecodeNormalize reshapeBack jpegQuality
  rcases shape with _ | ⟨b, _ | ⟨c, _ | ⟨w, _ | ⟨h, _ | ⟨e, rest⟩⟩⟩⟩⟩ <;>
    simp only [] <;> split <;> rfl

/-! ### Heap-level embedding: storage effects of the forward pass -/

/-- A heap of tensor storages, indexed in allocation order. -/
abbrev Heap := List (List ℚ)

/-- Reading a storage; an absent index reads as an empty storage. -/
def readStore (h : Heap) (i : Nat) : List ℚ :=
  h.getD i []

/-- A tensor as the host framework holds it: a shape over a storage index
    into the heap. -/
structure TensorRef where
  shape : List Nat
  store : Nat
  deriving Repr, DecidableEq

/-- Heap-level embedding of BottleneckUnit.forward, making storage effects
    explicit.  Every operation in the body is read-only on existing
    storages: torch.zeros_like allocates a fresh zero storage, the view and
    the ToPILImage and JPEG steps only read the input storage, and
    transforms.ToTensor constructs the decoded result in a fresh storage
    (per the spec the only side effect is transient allocation of the
    intermediate buffers).  No previously existing storage is written. -/
def BottleneckUnit.forwardH (codec : Codec) (heap : Heap) (x : TensorRef) :
    Except String (Heap × TensorRef) :=
  let xs := readStore heap x.store
  let heap1 := heap ++ [List.replicate xs.length 0]
  match x.shape with
  | [batch_size, channels, w, h] =>
    if xs.length = batch_size * channels * (w * h) then
      let bytes := xs.map floatToByte
      let decompressed := codec.roundtrip 90 (batch_size * channels) (w * h) bytes
      let vals := decompressed.map byteToFloat
      Except.ok (heap1 ++ [vals],
        { shape := [batch_size, channels, w, h], store := heap1.length })
    else
      Except.error ("shape is invalid for input size")
  | other =>
    if other.length < 4 then
      Except.error ("not enough values to unpack (expected 4)")
    else
      Except.error ("too many values to unpack (expected 4)")

/-- The caller-visible observation of a heap-level result: the shape of the
    returned tensor and the samples in its storage. -/
def observe (p : Heap × TensorRef) : List Nat × List ℚ :=
  (p.2.shape, readStore p.1 p.2.store)

lemma readStore_append {h l : Heap} {i : Nat} (hi : i < h.length) :
    readStore (h ++ l) i = readStore h i := by
  induction h generalizing i with
  | nil => simp at hi
  | cons a t ih =>
    cases i with
    | zero => rfl
    | succ j =>
      simp only [List.length_cons] at hi
      exact ih (by omega)

lemma readStore_concat_self (h : Heap) (v : List ℚ) :
    readStore (h ++ [v]) h.length = v := by
  induction h with
  | nil => rfl
  | cons a t ih => exact ih

/-- Inversion of a successful heap-level forward pass: the final heap is the
    initial heap extended with the transient zero buffer and the freshly
    decoded result storage, and the returned reference points at the fresh
    result storage. -/
lemma forwardH_ok_inv (codec : Codec) (heap : Heap) (x : TensorRef)
    (h' : Heap) (y : TensorRef)
    (hok : BottleneckUnit.forwardH codec heap x = Except.ok (h', y)) :
    ∃ b c w hh, x.shape = [b, c, w, hh] ∧
      (readStore heap x.store).length = b * c * (w * hh) ∧
      h' = heap ++ [List.replicate (readStore heap x.store).length 0] ++
        [(codec.roundtrip 90 (b * c) (w * hh)
            ((readStore heap x.store).map floatToByte)).map byteToFloat] ∧
      y = ⟨[b, c, w, hh], heap.length + 1⟩ := by
  unfold BottleneckUnit.forwardH at hok
  split at hok
  · simp only [] at hok
    split at hok
    · rename_i b c w hh heq hl
      obtain ⟨hheap, hy⟩ := Prod.mk.injEq .. ▸ (Except.ok.injEq _ _).mp hok
      refine ⟨b, c, w, hh, heq, hl, hheap.symm, ?_⟩
      rw [← hy]
      simp [List.length_append]
    · exact absurd hok (by simp)
  · split at hok <;> exact absurd hok (by simp)

/-! ### C6 and C10 -/

/-- C6: the operation is stateless and pure.  The result of the forward pass
    depends only on the shape of the argument and the samples in its
    storage, not on the rest of the heap or on any prior invocation; a
    successful call leaves every previously existing storage unchanged; and
    the backward pass is the identity on its argument. -/
theorem bottleneck_stateless :
    (∀ (codec : Codec) (h₁ h₂ : Heap) (x₁ x₂ : TensorRef),
        x₁.shape = x₂.shape →
        readStore h₁ x₁.store = readStore h₂ x₂.store →
        (BottleneckUnit.forwardH codec h₁ x₁).map observe =
          (BottleneckUnit.forwardH codec h₂ x₂).map observe) ∧
      (∀ (codec : Codec) (heap : Heap) (x : TensorRef) (h' : Heap)
          (y : TensorRef),
        BottleneckUnit.forwardH codec heap x = Except.ok (h', y) →
        ∀ i, i < heap.length → readStore h' i = readStore heap i) ∧
      (∀ (ctx : Unit) (g : Tensor), BottleneckUnit.backward ctx g = g) := by
  refine ⟨?_, ?_, fun _ _ => rfl⟩
  · intro codec h₁ h₂ x₁ x₂ hsh hdata
    unfold BottleneckUnit.forwardH
    rw [hsh, hdata]
    rcases hx : x₂.shape with _ | ⟨b, _ | ⟨c, _ | ⟨w, _ | ⟨h, _ | ⟨e, rest⟩⟩⟩⟩⟩ <;>
      simp only [] <;> split <;>
      simp only [Except.map, observe, readStore_concat_self]
  · intro codec heap x h' y hok i hi
    obtain ⟨b, c, w, hh, _, _, hheap, _⟩ :=
      forwardH_ok_inv codec heap x h' y hok
    subst hheap
    rw [List.append_assoc]
    exact readStore_append hi

/-- C10: a successful forward pass never mutates its input storage (nor any
    other pre-existing storage), and the returned tensor lives in a freshly
    allocated storage distinct from the input storage. -/
theorem forward_no_mutation (codec : Codec) (heap : Heap) (x : TensorRef)
    (h' : Heap) (y : TensorRef) (hvalid : x.store < heap.length)
    (hok : BottleneckUnit.forwardH codec heap x = Except.ok (h', y)) :
    readStore h' x.store = readStore heap x.store ∧
      (∀ i, i < heap.length → readStore h' i = readStore heap i) ∧
      y.store ≠ x.store ∧ heap.length ≤ y.store := by
  obtain ⟨b, c, w, hh, _, _, hheap, hy⟩ :=
    forwardH_ok_inv codec heap x h' y hok
  have hframe : ∀ i, i < heap.length → readStore h' i = readStore heap i := by
    intro i hi
    subst hheap
    rw [List.append_assoc]
    exact readStore_append hi
  refine ⟨hframe x.store hvalid, hframe, ?_, ?_⟩
  · rw [hy]
    intro hcontra
    simp only [] at hcontra
    omega
  · rw [hy]
    simp

/-- Concrete heap-level run of the forward pass used by the witnesses
    below: from a one-storage heap holding the single sample 1/2, the call
    allocates the transient zero buffer and the decoded result storage. -/
lemma forwardH_concrete :
    BottleneckUnit.forwardH identityCodec [[(1 : ℚ)/2]] ⟨[1, 1, 1, 1], 0⟩ =
      Except.ok ([[(1 : ℚ)/2], [0], [127/255]],
        ⟨[1, 1, 1, 1], 2⟩) := by
  simp only [BottleneckUnit.forwardH, identityCodec, readStore, List.getD,
    List.map]
  norm_num [floatToByte, byteToFloat, min_def, max_def]
  rfl

/-- Concrete instance of C6: the observation is unchanged when the heap
    grows by an unrelated storage, a pre-existing storage is unchanged by a
    successful call, and the backward pass fixes a concrete gradient. -/
theorem bottleneck_stateless_witness :
    ((BottleneckUnit.forwardH identityCodec [[(1 : ℚ)/2]]
          ⟨[1, 1, 1, 1], 0⟩).map observe =
        (BottleneckUnit.forwardH identityCodec [[(1 : ℚ)/2], [3]]
          ⟨[1, 1, 1, 1], 0⟩).map observe) ∧
      readStore [[(1 : ℚ)/2], [0], [127/255]] 0 =
        readStore [[(1 : ℚ)/2]] 0 ∧
      BottleneckUnit.backward () ⟨[1], [5]⟩ = ⟨[1], [5]⟩ :=
  ⟨bottleneck_stateless.1 identityCodec _ _ _ _ rfl rfl,
    bottleneck_stateless.2.1 identityCodec _ _ _ _ forwardH_concrete 0
      (by decide),
    bottleneck_stateless.2.2 () ⟨[1], [5]⟩⟩

/-- Concrete instance of C10: after a successful call from a one-storage
    heap, the input storage is untouched and the result lives in a fresh,
    distinct storage. -/
theorem forward_no_mutation_witness :
    readStore [[(1 : ℚ)/2], [0], [127/255]] 0 = readStore [[(1 : ℚ)/2]] 0 ∧
      (∀ i, i < ([[(1 : ℚ)/2]] : Heap).length →
        readStore [[(1 : ℚ)/2], [0], [127/255]] i =
          readStore [[(1 : ℚ)/2]] i) ∧
      (TensorRef.mk [1, 1, 1, 1] 2).store ≠
        (TensorRef.mk [1, 1, 1, 1] 0).store ∧
      ([[(1 : ℚ)/2]] : Heap).length ≤ (TensorRef.mk [1, 1, 1, 1] 2).store :=
  forward_no_mutation identityCodec [[(1 : ℚ)/2]] ⟨[1, 1, 1, 1], 0⟩ _ _
    (by decide) forwardH_concrete

/-! ### C7: constant 1/2 input stays near 1/2 -/

/-- Absolute difference of two 8-bit samples. -/
def byteErr (a b : Nat) : Nat :=
  max a b - min a b

lemma byteErr_bounds {a b k : Nat} (h : byteErr a b ≤ k) :
    b - k ≤ a ∧ a ≤ b + k := by
  unfold byteErr at h
  rcases Nat.le_total a b with hab | hab
  · rw [Nat.max_eq_right hab, Nat.min_eq_left hab] at h
    omega
  · rw [Nat.max_eq_left hab, Nat.min_eq_right hab] at h
    omega

lemma floatToByte_half : floatToByte (1/2) = 127 := by
  norm_num [floatToByte, min_def, max_def]
  rfl

/-- C7: feeding a single-channel 28 by 28 tensor of constant sample 1/2
    through the forward pass, with any codec whose per-sample round-trip
    error stays within the quantization tolerance (12 in 8-bit units, the
    spec tolerance of 0.05 of the unit range), yields an output whose every
    sample lies within 1/20 of 1/2. -/
theorem forward_const_half (codec : Codec)
    (hacc : ∀ q r c px i,
      byteErr ((codec.roundtrip q r c px).getD i 0) (px.getD i 0) ≤ 12) :
    ∃ y, BottleneckUnit.forward codec
        ⟨[1, 1, 28, 28], List.replicate (28 * 28) (1/2)⟩ = Except.ok y ∧
      ∀ v ∈ y.data, 1/2 - 1/20 ≤ v ∧ v ≤ 1/2 + 1/20 := by
  have hl : (List.replicate (28 * 28) ((1 : ℚ)/2)).length = 1 * 1 * (28 * 28) := by
    rw [List.length_replicate]
  refine ⟨_, forward_ok codec _ 1 1 28 28 rfl hl, ?_⟩
  intro v hv
  simp only [List.mem_map] at hv
  obtain ⟨d, hd, hvd⟩ := hv
  obtain ⟨i, hi, hdi⟩ := List.mem_iff_getElem.mp hd
  set bytes := (List.replicate (28 * 28) ((1 : ℚ)/2)).map floatToByte with hbytes
  have hbytes127 : bytes = List.replicate (28 * 28) 127 := by
    rw [hbytes, List.map_replicate, floatToByte_half]
  have hlen : (codec.roundtrip 90 (1 * 1) (28 * 28) bytes).length = 28 * 28 := by
    rw [codec.length_eq, hbytes127, List.length_replicate]
  have hgetD : (codec.roundtrip 90 (1 * 1) (28 * 28) bytes).getD i 0 = d := by
    rw [List.getD_eq_getElem _ _ hi, hdi]
  have hpx : bytes.getD i 0 = 127 := by
    rw [hbytes127]
    rw [List.getD_eq_getElem _ _ (by rw [List.length_replicate]; omega)]
    exact List.getElem_replicate ..
  have herr := hacc 90 (1 * 1) (28 * 28) bytes i
  rw [hgetD, hpx] at herr
  obtain ⟨hlow, hhigh⟩ := byteErr_bounds herr
  have hd115 : 115 ≤ d := by omega
  have hd139 : d ≤ 139 := by omega
  subst hvd
  unfold byteToFloat
  constructor
  · rw [le_div_iff₀ (by norm_num : (0 : ℚ) < 255)]
    have : (115 : ℚ) ≤ (d : ℚ) := by exact_mod_cast hd115
    linarith
  · rw [div_le_iff₀ (by norm_num : (0 : ℚ) < 255)]
    have : (d : ℚ) ≤ 139 := by exact_mod_cast hd139
    linarith

/-- Concrete instance of C7: the lossless round trip satisfies the
    tolerance hypothesis, so the constant 1/2 tensor comes back within
    1/20 of 1/2 everywhere. -/
theorem forward_const_half_witness :
    ∃ y, BottleneckUnit.forward identityCodec
        ⟨[1, 1, 28, 28], List.replicate (28 * 28) (1/2)⟩ = Except.ok y ∧
      ∀ v ∈ y.data, 1/2 - 1/20 ≤ v ∧ v ≤ 1/2 + 1/20 :=
  forward_const_half identityCodec (by
    intro q r c px i
    simp [identityCodec, byteErr])

/-! ### C8: the forward pass is not exactly idempotent -/

/-- Modelled from the spec: the lossy JPEG quantization of a single 8-bit
    sample at quality q (the codec itself is third-party PIL code absent
    from this repository).  The spec describes the format as a lossy
    quantized approximation whose recompression may shift values further:
    a sample is scaled down by the quality ratio and back up with
    truncating integer arithmetic, so it never increases and repeated
    application may keep drifting. -/
def jpegSample (q b : Nat) : Nat :=
  b * q / 100 * 100 / q

/-- Modelled from the spec: the JPEG encode/decode round trip quantizes
    every sample of the single-channel image independently. -/
def jpegRoundtripModel (q _rows _cols : Nat) (px : List Nat) : List Nat :=
  px.map (jpegSample q)

lemma jpegSample_le_self (q b : Nat) : jpegSample q b ≤ b := by
  unfold jpegSample
  rcases Nat.eq_zero_or_pos q with hq | hq
  · subst hq
    simp
  · have h1 : b * q / 100 * 100 ≤ b * q := Nat.div_mul_le_self (b * q) 100
    calc b * q / 100 * 100 / q ≤ b * q / q := Nat.div_le_div_right h1
      _ = b := Nat.mul_div_cancel b hq

/-- The modelled JPEG codec, packaged with its range guarantees. -/
def jpegCodec : Codec where
  roundtrip := jpegRoundtripModel
  length_eq := fun q _ _ px => by simp [jpegRoundtripModel]
  le_255 := fun q r c px hpx b hb => by
    simp only [jpegRoundtripModel, List.mem_map] at hb
    obtain ⟨a, ha, rfl⟩ := hb
    exact (jpegSample_le_self q a).trans (hpx a ha)

/-- Iterated application of the forward pass: n successive passes with
    re-encoding. -/
def forwardN (codec : Codec) : Nat → Tensor → Except String Tensor
  | 0, x => Except.ok x
  | n + 1, x => (forwardN codec n x).bind (BottleneckUnit.forward codec)

lemma except_bind_ok {e : Except String Tensor}
    {f : Tensor → Except String Tensor} {y : Tensor}
    (h : e.bind f = Except.ok y) :
    ∃ m, e = Except.ok m ∧ f m = Except.ok y := by
  cases e with
  | error msg => exact absurd h (by simp [Except.bind])
  | ok m => exact ⟨m, rfl, h⟩

lemma jpegSample_iter_le (m k : Nat) : (jpegSample 90)^[m] k ≤ k := by
  induction m with
  | zero => simp
  | succ n ih =>
    rw [Function.iterate_succ_apply']
    exact (jpegSample_le_self 90 _).trans ih

lemma jpegSample_iter_zero (m : Nat) : (jpegSample 90)^[m] 0 = 0 := by
  induction m with
  | zero => rfl
  | succ n ih =>
    rw [Function.iterate_succ_apply', ih]
    rfl

lemma byteToFloat_mono {a b : Nat} (h : a ≤ b) :
    byteToFloat a ≤ byteToFloat b := by
  unfold byteToFloat
  have hab : (a : ℚ) ≤ (b : ℚ) := by exact_mod_cast h
  linarith

/-- Re-encoding never overshoots a nonnegative sample: the decoded value of
    the encoded sample is at most the original. -/
lemma byteToFloat_floatToByte_le {v : ℚ} (hv : 0 ≤ v) :
    byteToFloat (floatToByte v) ≤ v := by
  unfold byteToFloat floatToByte
  have hclamp : max 0 (min v 1) ≤ v := max_le hv (min_le_left v 1)
  have hnn : (0 : ℚ) ≤ max 0 (min v 1) * 255 := by positivity
  have hfloor : (0 : ℤ) ≤ ⌊max 0 (min v 1) * 255⌋ := Int.floor_nonneg.mpr hnn
  rw [div_le_iff₀ (by norm_num : (0 : ℚ) < 255)]
  have hcast : (((⌊max 0 (min v 1) * 255⌋).toNat : ℕ) : ℚ) =
      ((⌊max 0 (min v 1) * 255⌋ : ℤ) : ℚ) := by
    exact_mod_cast congrArg (fun z : ℤ => (z : ℚ))
      (Int.toNat_of_nonneg hfloor)
  rw [hcast]
  have h1 : ((⌊max 0 (min v 1) * 255⌋ : ℤ) : ℚ) ≤ max 0 (min v 1) * 255 :=
    Int.floor_le _
  nlinarith

lemma ok_bind (t : Tensor) (f : Tensor → Except String Tensor) :
    (Except.ok t).bind f = f t :=
  rfl

lemma forwardN_succ (codec : Codec) (n : Nat) (x : Tensor) :
    forwardN codec (n + 1) x =
      (forwardN codec n x).bind (BottleneckUnit.forward codec) :=
  rfl

lemma forwardN_zero (codec : Codec) (x : Tensor) :
    forwardN codec 0 x = Except.ok x :=
  rfl

lemma getD_map_lt (f : ℚ → ℚ) (l : List ℚ) {i : Nat} (hi : i < l.length) :
    (l.map f).getD i 0 = f (l.getD i 0) := by
  rw [List.getD_eq_getElem _ _ (by simpa using hi), List.getElem_map,
    List.getD_eq_getElem _ _ hi]

/-- Closed form of n+1 iterated forward passes under the modelled codec:
    each sample is encoded once, quantized n+1 times and decoded, the
    re-encoding in between recovering the 8-bit samples exactly. -/
lemma forwardN_jpeg_closed (x : Tensor) (b c w h : Nat)
    (hs : x.shape = [b, c, w, h]) (hl : x.data.length = b * c * (w * h)) :
    ∀ n, forwardN jpegCodec (n + 1) x =
      Except.ok ⟨[b, c, w, h],
        x.data.map
          (fun v => byteToFloat ((jpegSample 90)^[n + 1] (floatToByte v)))⟩ := by
  intro n
  induction n with
  | zero =>
    rw [forwardN_succ, forwardN_zero, ok_bind]
    rw [forward_ok jpegCodec x b c w h hs hl]
    have hdata : (jpegCodec.roundtrip 90 (b * c) (w * h)
        (x.data.map floatToByte)).map byteToFloat =
        x.data.map
          (fun v => byteToFloat ((jpegSample 90)^[0 + 1] (floatToByte v))) := by
      show (jpegRoundtripModel 90 (b * c) (w * h)
        (x.data.map floatToByte)).map byteToFloat = _
      unfold jpegRoundtripModel
      rw [List.map_map, List.map_map]
      apply List.map_congr_left
      intro a _
      simp [Function.comp]
    rw [hdata]
  | succ m ih =>
    rw [forwardN_succ, ih, ok_bind]
    have hlen : (x.data.map
        (fun v => byteToFloat ((jpegSample 90)^[m + 1] (floatToByte v)))).length
        = b * c * (w * h) := by
      rw [List.length_map]
      exact hl
    rw [forward_ok jpegCodec _ b c w h rfl hlen]
    have hdata : (jpegCodec.roundtrip 90 (b * c) (w * h)
        ((x.data.map
          (fun v => byteToFloat ((jpegSample 90)^[m + 1] (floatToByte v)))).map
            floatToByte)).map byteToFloat =
        x.data.map
          (fun v => byteToFloat ((jpegSample 90)^[m + 1 + 1] (floatToByte v))) := by
      show (jpegRoundtripModel 90 (b * c) (w * h) _).map byteToFloat = _
      unfold jpegRoundtripModel
      rw [List.map_map, List.map_map, List.map_map]
      apply List.map_congr_left
      intro a _
      have hb255 : (jpegSample 90)^[m + 1] (floatToByte a) ≤ 255 :=
        (jpegSample_iter_le (m + 1) _).trans (floatToByte_le a)
      simp only [Function.comp]
      rw [floatToByte_byteToFloat hb255]
      rw [← Function.iterate_succ_apply' (jpegSample 90) (m + 1)]
    rw [hdata]

/-- A successful iterated forward pass means the original input was
    well formed. -/
lemma forwardN_ok_wf {codec : Codec} {n : Nat} {x y : Tensor}
    (h : forwardN codec (n + 1) x = Except.ok y) : wellFormed4 x := by
  induction n generalizing y with
  | zero =>
    obtain ⟨m, hm, hfwd⟩ := except_bind_ok h
    have hmx : m = x := by
      rw [forwardN_zero] at hm
      exact ((Except.ok.injEq _ _).mp hm.symm)
    subst hmx
    obtain ⟨b, c, w, hh, hs, hl, _⟩ := forward_ok_inv _ _ _ hfwd
    exact ⟨b, c, w, hh, hs, hl⟩
  | succ m ih =>
    obtain ⟨mid, hmid, _⟩ := except_bind_ok h
    exact ih hmid

/-- Pointwise drift monotonicity of the modelled quantizer: the deviation
    of the n+1 times quantized sample from the original value never shrinks
    as n grows. -/
lemma drift_mono (v : ℚ) (n : Nat) :
    |v - byteToFloat ((jpegSample 90)^[n + 1] (floatToByte v))| ≤
      |v - byteToFloat ((jpegSample 90)^[n + 2] (floatToByte v))| := by
  by_cases hv : 0 ≤ v
  · have hle : ∀ m, byteToFloat ((jpegSample 90)^[m] (floatToByte v)) ≤ v := by
      intro m
      calc byteToFloat ((jpegSample 90)^[m] (floatToByte v))
          ≤ byteToFloat (floatToByte v) :=
            byteToFloat_mono (jpegSample_iter_le m _)
        _ ≤ v := byteToFloat_floatToByte_le hv
    have hmono : byteToFloat ((jpegSample 90)^[n + 2] (floatToByte v)) ≤
        byteToFloat ((jpegSample 90)^[n + 1] (floatToByte v)) := by
      apply byteToFloat_mono
      rw [show n + 2 = (n + 1) + 1 from rfl,
        Function.iterate_succ_apply' (jpegSample 90) (n + 1)]
      exact jpegSample_le_self 90 _
    rw [abs_of_nonneg (by linarith [hle (n + 1)]),
      abs_of_nonneg (by linarith [hle (n + 2)])]
    linarith
  · push_neg at hv
    rw [floatToByte_of_le_zero hv.le, jpegSample_iter_zero,
      jpegSample_iter_zero]

lemma forward_jpeg_one :
    BottleneckUnit.forward jpegCodec ⟨[1, 1, 1, 1], [1]⟩ =
      Except.ok ⟨[1, 1, 1, 1], [254/255]⟩ := by
  rw [forward_ok jpegCodec ⟨[1, 1, 1, 1], [1]⟩ 1 1 1 1 rfl rfl]
  have hdata : (jpegCodec.roundtrip 90 (1 * 1) (1 * 1)
      ((Tensor.mk [1, 1, 1, 1] [1]).data.map floatToByte)).map byteToFloat =
      [(254 : ℚ)/255] := by
    show (jpegRoundtripModel 90 (1 * 1) (1 * 1)
      ([(1 : ℚ)].map floatToByte)).map byteToFloat = [(254 : ℚ)/255]
    rw [show [(1 : ℚ)].map floatToByte = [255] by
      simp [floatToByte_of_one_le le_rfl]]
    rw [show jpegRoundtripModel 90 (1 * 1) (1 * 1) [255] = [254] by
      simp [jpegRoundtripModel, jpegSample]]
    simp [byteToFloat]
  rw [hdata]

lemma forward_jpeg_two :
    BottleneckUnit.forward jpegCodec ⟨[1, 1, 1, 1], [254/255]⟩ =
      Except.ok ⟨[1, 1, 1, 1], [253/255]⟩ := by
  rw [forward_ok jpegCodec ⟨[1, 1, 1, 1], [254/255]⟩ 1 1 1 1 rfl rfl]
  have h254 : floatToByte (254/255) = 254 := by
    have h := floatToByte_byteToFloat (b := 254) (by omega)
    rw [byteToFloat] at h
    simpa using h
  have hdata : (jpegCodec.roundtrip 90 (1 * 1) (1 * 1)
      ((Tensor.mk [1, 1, 1, 1] [254/255]).data.map floatToByte)).map
        byteToFloat = [(253 : ℚ)/255] := by
    show (jpegRoundtripModel 90 (1 * 1) (1 * 1)
      ([(254 : ℚ)/255].map floatToByte)).map byteToFloat = [(253 : ℚ)/255]
    rw [show [(254 : ℚ)/255].map floatToByte = [254] by simp [h254]]
    rw [show jpegRoundtripModel 90 (1 * 1) (1 * 1) [254] = [253] by
      simp [jpegRoundtripModel, jpegSample]]
    simp [byteToFloat]
  rw [hdata]

/-- C8: under the modelled lossy codec the forward pass is not exactly
    idempotent: a second pass can change the output again.  Yet the changes
    stay bounded (every iterated output sample remains in the unit
    interval) and fidelity is monotonically non-increasing: the pointwise
    deviation from the original input never shrinks across successive
    passes. -/
theorem forward_not_idempotent :
    (∃ x y z : Tensor, BottleneckUnit.forward jpegCodec x = Except.ok y ∧
        BottleneckUnit.forward jpegCodec y = Except.ok z ∧ z ≠ y) ∧
      (∀ (n : Nat) (x y : Tensor),
        forwardN jpegCodec (n + 1) x = Except.ok y →
        ∀ v ∈ y.data, 0 ≤ v ∧ v ≤ 1) ∧
      (∀ (n : Nat) (x y z : Tensor),
        forwardN jpegCodec (n + 1) x = Except.ok y →
        forwardN jpegCodec (n + 2) x = Except.ok z →
        ∀ i : Nat, |x.data.getD i 0 - y.data.getD i 0| ≤
          |x.data.getD i 0 - z.data.getD i 0|) := by
  refine ⟨?_, ?_, ?_⟩
  · refine ⟨⟨[1, 1, 1, 1], [1]⟩, ⟨[1, 1, 1, 1], [254/255]⟩,
      ⟨[1, 1, 1, 1], [253/255]⟩, forward_jpeg_one, forward_jpeg_two, ?_⟩
    intro hzy
    rw [Tensor.mk.injEq] at hzy
    have := hzy.2
    simp only [List.cons.injEq] at this
    have h2 := this.1
    norm_num at h2
  · intro n x y h
    obtain ⟨m, _, hfwd⟩ := except_bind_ok h
    exact forward_ok_range jpegCodec m y hfwd
  · intro n x y z hy hz i
    obtain ⟨b, c, w, hh, hs, hl⟩ := forwardN_ok_wf hy
    rw [forwardN_jpeg_closed x b c w hh hs hl n] at hy
    rw [forwardN_jpeg_closed x b c w hh hs hl (n + 1)] at hz
    have hyx := (Except.ok.injEq _ _).mp hy
    have hzx := (Except.ok.injEq _ _).mp hz
    subst hyx
    subst hzx
    simp only []
    by_cases hi : i < x.data.length
    · rw [getD_map_lt _ _ hi, getD_map_lt _ _ hi]
      exact drift_mono (x.data.getD i 0) n
    · push_neg at hi
      rw [List.getD_eq_default _ _ hi,
        List.getD_eq_default _ _ (by simpa using hi),
        List.getD_eq_default _ _ (by simpa using hi)]

/-- Concrete instance of C8: one pass on the constant-1 tensor gives
    254/255, a second pass gives 253/255, the iterated outputs stay in the
    unit interval and the deviation from the input grows. -/
theorem forward_not_idempotent_witness :
    (∀ v ∈ (Tensor.mk [1, 1, 1, 1] [254/255]).data, 0 ≤ v ∧ v ≤ 1) ∧
      |(Tensor.mk [1, 1, 1, 1] [(1 : ℚ)]).data.getD 0 0 -
          (Tensor.mk [1, 1, 1, 1] [254/255]).data.getD 0 0| ≤
        |(Tensor.mk [1, 1, 1, 1] [(1 : ℚ)]).data.getD 0 0 -
          (Tensor.mk [1, 1, 1, 1] [253/255]).data.getD 0 0| := by
  have h1 : forwardN jpegCodec 1 ⟨[1, 1, 1, 1], [1]⟩ =
      Except.ok ⟨[1, 1, 1, 1], [254/255]⟩ := by
    rw [forwardN_succ, forwardN_zero, ok_bind]
    exact forward_jpeg_one
  have h2 : forwardN jpegCodec 2 ⟨[1, 1, 1, 1], [1]⟩ =
      Except.ok ⟨[1, 1, 1, 1], [253/255]⟩ := by
    rw [forwardN_succ, h1, ok_bind]
    exact forward_jpeg_two
  exact ⟨forward_not_idempotent.2.1 0 ⟨[1, 1, 1, 1], [1]⟩ _ h1,
    forward_not_idempotent.2.2 0 ⟨[1, 1, 1, 1], [1]⟩ _ _ h1 h2 0⟩

end BottleNet
